import Mathlib

/-!
# A shallow embedding of Stefan Lenz's Tiny BASIC interpreter (`basic.c`)

This development embeds the core state and routines of the interpreter:
the shared byte store `mem` with its two frontiers `top` and `himem`, the
run-mode tokenizer (`gettoken`), the program-store line editor
(`storeline` with `moveblock`, `findline`, `nextline`, `firstline`), the
heap allocator (`bmalloc`, `bfind`, `blength`), the string assignment
path of `assignment`, the FOR/NEXT machinery (`xfor` tail, `findnext`,
`xnext`), `peek`/`xpoke`, `rnd`, and the `error` routine.

Modelling conventions:
* a memory cell (C `signed char`) is a natural number `< 256`; `toSigned`
  reinterprets it as the signed value, `toByte` truncates an integer to a
  byte, mirroring the C conversions;
* `number_t = int` is four bytes, `address_t = unsigned short` is two
  bytes, both little-endian, exactly as `getnumber`/`setnumber` lay them
  out through the union `z`;
* C `while` loops that advance the program cursor are written as
  fuel-indexed recursions; the fuel passed by the wrappers dominates the
  loop variant `top - here`, so on every state the C loop reaches the
  model computes the same result;
* the global interpreter registers are gathered in one structure `S`.
-/

namespace TinyBasic

/-! ## Bytes and multi-byte encodings -/

/-- One memory cell per address; cells written by the model are `< 256`. -/
def Mem : Type := Nat → Nat

/-- Reinterpret a byte as a C `signed char` value. -/
def toSigned (b : Nat) : Int :=
  if b % 256 < 128 then (b % 256 : Int) else (b % 256 : Int) - 256

/-- Truncate an integer to a byte, as C stores a value into a `char` cell. -/
def toByte (v : Int) : Nat := (v % 256).toNat

/-- Write one cell. -/
def wr (m : Mem) (a v : Nat) : Mem := fun j => if j = a then v % 256 else m j

@[simp] theorem wr_same (m : Mem) (a v : Nat) : wr m a v a = v % 256 := by
  simp [wr]

theorem wr_other (m : Mem) (a v j : Nat) (h : j ≠ a) : wr m a v j = m j := by
  simp [wr, h]

/-- `sizeof(number_t)` with `number_t = int`. -/
def numsize : Nat := 4
/-- `sizeof(address_t)` with `address_t = unsigned short`. -/
def addrsize : Nat := 2
/-- index field size of a string object. -/
def strindexsize : Nat := 2

/-- `getnumber(a, addrsize)` followed by reading `z.a`: a little-endian
unsigned 16-bit read. -/
def getaddr (m : Mem) (a : Nat) : Nat := m a % 256 + 256 * (m (a + 1) % 256)

/-- `z.a := v; setnumber(a, addrsize)`: little-endian unsigned 16-bit write. -/
def setaddr (m : Mem) (a v : Nat) : Mem :=
  wr (wr m a (v % 256)) (a + 1) (v / 256 % 256)

/-- Reinterpret an unsigned 32-bit value as a signed `int`. -/
def sign32 (u : Nat) : Int :=
  if u % 4294967296 < 2147483648 then (u % 4294967296 : Int)
  else (u % 4294967296 : Int) - 4294967296

/-- `getnumber(a, numsize)` followed by reading `z.i`: little-endian
signed 32-bit read. -/
def getnum4 (m : Mem) (a : Nat) : Int :=
  sign32 (m a % 256 + 256 * (m (a + 1) % 256) + 65536 * (m (a + 2) % 256) +
    16777216 * (m (a + 3) % 256))

/-- The little-endian bytes of a 16-bit line number / address. -/
def encAddr (n : Nat) : List Nat := [n % 256, n / 256 % 256]

/-- The little-endian bytes of a `number_t` payload (`z.i := v;
setnumber(a, numsize)`). -/
def encNum (v : Int) : List Nat :=
  [(v % 4294967296).toNat % 256, (v % 4294967296).toNat / 256 % 256,
   (v % 4294967296).toNat / 65536 % 256, (v % 4294967296).toNat / 16777216 % 256]

/-! ## Token codes (the `#define`s of `basic.c`) -/

def EOL : Int := 0
def NUMBER : Int := -127
def LINENUMBER : Int := -126
def STRING : Int := -125
def VARIABLE : Int := -124
def STRINGVAR : Int := -123
def ARRAYVAR : Int := -122
def TFOR : Int := -111
def TTO : Int := -110
def TSTEP : Int := -109
def TNEXT : Int := -108

/-! ## Error codes (message indices of `basic.c`) -/

def EGENERAL : Int := 3
def EUNKNOWN : Int := 4
def ELINE : Int := 7
def ENEXT : Int := 9
def EFOR : Int := 11
def EOUTOFMEMORY : Int := 12
def ESTACK : Int := 13
def ERANGE : Int := 15
def EVARIABLE : Int := 17

/-! ## Interpreter modes -/

def SINT : Int := 0
def SRUN : Int := 1
def SERUN : Int := 2

/-! ## The interpreter state

All global registers of `basic.c` that the embedded routines touch,
gathered in a single structure.  `stack` is the evaluation stack (head =
top of stack), `forstack` the FOR stack, `gosubstack` the GOSUB return
stack. -/

/-- One record of the FOR stack: `{char varx; char vary; address_t here;
number_t to; number_t step;}`. -/
structure FRec where
  varx : Nat
  vary : Nat
  hereR : Nat
  toR : Int
  stepR : Int
  deriving Repr, DecidableEq

structure S where
  mem : Mem
  memsize : Nat
  top : Nat
  himem : Nat
  here : Nat
  token : Int
  x : Int
  y : Int
  xc : Nat
  yc : Nat
  er : Int
  st : Int
  stack : List Int
  forstack : List FRec
  fnc : Nat
  gosubstack : List Nat
  vars : Nat → Int
  id : Nat
  od : Nat
  idd : Nat
  odd : Nat
  rd : Nat
  nvars : Nat

/-- The state effect of `error(e)`: set `er`, reset the I/O selection,
clear the evaluation stack (`clearst`), the FOR stack (`clrforstack`)
and the GOSUB stack (`clrgosubstack`).  The printed output is modelled
separately by `errorOut`. -/
def errorS (s : S) (e : Int) : S :=
  { s with er := e, od := s.odd, id := s.idd, stack := [],
           forstack := [], fnc := 0, gosubstack := [] }

/-! ## The run-mode tokenizer: `gettoken` -/

/-- `gettoken` for `st = SRUN` (memread reads `mem`): reads the tag byte
at `here` and the tag-specific payload, advancing `here`; if `here` has
reached `top`, `EOL` is returned without touching memory or `here`. -/
def gettoken (s : S) : S :=
  if s.here ≥ s.top then { s with token := EOL }
  else
    let t := toSigned (s.mem s.here)
    let h := s.here + 1
    if t = LINENUMBER then
      { s with token := t, x := (getaddr s.mem h : Int), here := h + addrsize }
    else if t = NUMBER then
      { s with token := t, x := getnum4 s.mem h, here := h + numsize }
    else if t = ARRAYVAR ∨ t = VARIABLE ∨ t = STRINGVAR then
      { s with token := t, xc := s.mem h % 256, yc := s.mem (h + 1) % 256,
               here := h + 2 }
    else if t = STRING then
      { s with token := t, x := (s.mem h % 256 : Int),
               here := h + 1 + s.mem h % 256 }
    else
      { s with token := t, here := h }

theorem gettoken_at_end (s : S) (h : s.here ≥ s.top) :
    gettoken s = { s with token := EOL } := by
  simp [gettoken, h]

/-- `gettoken` advances `here` by at least one byte whenever there is a
byte to read. -/
theorem gettoken_advances (s : S) (h : s.here < s.top) :
    s.here < (gettoken s).here := by
  rw [gettoken, if_neg (by omega)]
  simp only [apply_ite S.here]
  repeat' split
  all_goals omega

theorem gettoken_top (s : S) : (gettoken s).top = s.top := by
  simp only [gettoken]
  repeat' split
  all_goals rfl

theorem gettoken_mem (s : S) : (gettoken s).mem = s.mem := by
  simp only [gettoken]
  repeat' split
  all_goals rfl

theorem gettoken_er (s : S) : (gettoken s).er = s.er := by
  simp only [gettoken]
  repeat' split
  all_goals rfl

/-- A closed, fully concrete interpreter state used by witnesses. -/
def s0 : S :=
  { mem := fun _ => 0, memsize := 59999, top := 0, himem := 59999, here := 0,
    token := EOL, x := 0, y := 0, xc := 0, yc := 0, er := 0, st := SINT,
    stack := [], forstack := [], fnc := 0, gosubstack := [], vars := fun _ => 0,
    id := 1, od := 1, idd := 1, odd := 1, rd := 0, nvars := 0 }

/-- C10: in run mode, whenever the program cursor `here` is at or past
`top`, reading the next token yields `EOL`, does not advance `here`, and
does not depend on the contents of program memory, so the run loop's
termination test `here >= top` is reached through a well-defined `EOL`
token rather than through out-of-bounds data. -/
theorem C10_gettoken_past_top (s : S) (h : s.here ≥ s.top) :
    (gettoken s).token = EOL ∧ (gettoken s).here = s.here ∧
      ∀ m' : Mem, gettoken { s with mem := m' } = { s with mem := m', token := EOL } := by
  refine ⟨?_, ?_, ?_⟩
  · rw [gettoken_at_end s h]
  · rw [gettoken_at_end s h]
  · intro m'
    exact gettoken_at_end { s with mem := m' } h

theorem C10_gettoken_past_top_witness :
    s0.here ≥ s0.top ∧
      ((gettoken s0).token = EOL ∧ (gettoken s0).here = s0.here ∧
        ∀ m' : Mem, gettoken { s0 with mem := m' } = { s0 with mem := m', token := EOL }) :=
  ⟨by decide, C10_gettoken_past_top s0 (by decide)⟩

/-! ## `moveblock`: overlap-safe block moves inside the byte store -/

/-- The ascending copy loop of `moveblock` (`for (i=0; i<l; i++)
mem[d+i]=mem[b+i]`), executed sequentially on the shared memory. -/
def moveAsc (b d : Nat) : Nat → Mem → Mem
  | 0, m => m
  | l + 1, m => let m' := moveAsc b d l m; wr m' (d + l) (m' (b + l))

/-- The descending copy loop of `moveblock` (`for (i=l; i>0; i--)
mem[d+i-1]=mem[b+i-1]`), executed sequentially on the shared memory. -/
def moveDesc (b d : Nat) : Nat → Mem → Mem
  | 0, m => m
  | l + 1, m => moveDesc b d l (wr m (d + l) (m (b + l)))

/-- `moveblock(b, l, d)`: fails with `OUT_OF_MEMORY` when `d + l > himem`;
otherwise copies descending when `b < d` and ascending otherwise. -/
def moveblock (s : S) (b l d : Nat) : S :=
  if d + l > s.himem then errorS s EOUTOFMEMORY
  else if l < 1 then s
  else if b < d then { s with mem := moveDesc b d l s.mem }
  else { s with mem := moveAsc b d l s.mem }

theorem moveAsc_frame (b d : Nat) (l : Nat) (m : Mem) (j : Nat)
    (h : j < d ∨ d + l ≤ j) : moveAsc b d l m j = m j := by
  induction l with
  | zero => rfl
  | succ l ih =>
    rw [moveAsc]
    rw [wr_other _ _ _ _ (by omega)]
    exact ih (by omega)

theorem moveDesc_frame (b d : Nat) (l : Nat) (m : Mem) (j : Nat)
    (h : j < d ∨ d + l ≤ j) : moveDesc b d l m j = m j := by
  induction l generalizing m with
  | zero => rfl
  | succ l ih =>
    rw [moveDesc]
    rw [ih _ (by omega)]
    exact wr_other _ _ _ _ (by omega)

/-- When the source starts at or after the destination, the ascending
copy places the original source bytes in the destination range even when
the ranges overlap. -/
theorem moveAsc_copies (b d : Nat) (hbd : d ≤ b) (l : Nat) (m : Mem)
    (i : Nat) (hi : i < l) : moveAsc b d l m (d + i) = m (b + i) % 256 := by
  induction l with
  | zero => omega
  | succ l ih =>
    rw [moveAsc]
    rcases Nat.lt_or_ge i l with h | h
    · rw [wr_other _ _ _ _ (by omega)]
      exact ih h
    · have hil : i = l := by omega
      subst hil
      rw [wr_same]
      rw [moveAsc_frame _ _ _ _ _ (by omega)]

/-- When the source starts strictly before the destination, the
descending copy places the original source bytes in the destination
range even when the ranges overlap. -/
theorem moveDesc_copies (b d : Nat) (hbd : b < d) (l : Nat) (m : Mem)
    (i : Nat) (hi : i < l) : moveDesc b d l m (d + i) = m (b + i) % 256 := by
  induction l generalizing m with
  | zero => omega
  | succ l ih =>
    rw [moveDesc]
    rcases Nat.lt_or_ge i l with h | h
    · rw [ih _ h]
      rw [wr_other _ _ _ _ (by omega)]
    · have hil : i = l := by omega
      subst hil
      rw [moveDesc_frame _ _ _ _ _ (by omega)]
      rw [wr_same]

/-- Bytes outside the destination range are untouched by a successful
`moveblock`. -/
theorem moveblock_frame (s : S) (b l d : Nat) (hok : d + l ≤ s.himem)
    (j : Nat) (h : j < d ∨ d + l ≤ j) : (moveblock s b l d).mem j = s.mem j := by
  rw [moveblock, if_neg (by omega)]
  rcases Nat.lt_or_ge l 1 with hl | hl
  · rw [if_pos hl]
  · rw [if_neg (by omega)]
    rcases Nat.lt_or_ge b d with hb | hb
    · rw [if_pos hb]
      exact moveDesc_frame _ _ _ _ _ h
    · rw [if_neg (by omega)]
      exact moveAsc_frame _ _ _ _ _ h

/-- The bytes landed by a successful `moveblock` are the original source
bytes. -/
theorem moveblock_copies (s : S) (b l d : Nat) (hok : d + l ≤ s.himem)
    (hbytes : ∀ j, s.mem j < 256) (i : Nat) (hi : i < l) :
    (moveblock s b l d).mem (d + i) = s.mem (b + i) := by
  rw [moveblock, if_neg (by omega)]
  rw [if_neg (by omega)]
  have hb256 : s.mem (b + i) % 256 = s.mem (b + i) := Nat.mod_eq_of_lt (hbytes _)
  rcases Nat.lt_or_ge b d with hb | hb
  · rw [if_pos hb]
    have hc := moveDesc_copies b d hb l s.mem i hi
    rw [hb256] at hc
    exact hc
  · rw [if_neg (by omega)]
    have hc := moveAsc_copies b d hb l s.mem i hi
    rw [hb256] at hc
    exact hc

theorem moveblock_top (s : S) (b l d : Nat) : (moveblock s b l d).top = s.top := by
  rw [moveblock]
  repeat' split
  all_goals rfl

theorem moveblock_himem (s : S) (b l d : Nat) :
    (moveblock s b l d).himem = s.himem := by
  rw [moveblock]
  repeat' split
  all_goals rfl

theorem moveblock_er (s : S) (b l d : Nat) (hok : d + l ≤ s.himem) :
    (moveblock s b l d).er = s.er := by
  rw [moveblock, if_neg (by omega)]
  repeat' split
  all_goals rfl

theorem moveblock_here (s : S) (b l d : Nat) :
    (moveblock s b l d).here = s.here := by
  rw [moveblock]
  repeat' split
  all_goals rfl

/-- C2: a `moveblock(b, l, d)` with `d + l ≤ himem` leaves the bytes at
`[d, d+l)` equal to the bytes originally at `[b, b+l)`, even when the two
ranges overlap (the copy runs descending when `b < d` and ascending
otherwise); a call with `d + l > himem` raises `OUT_OF_MEMORY` and leaves
memory unchanged. -/
theorem C2_moveblock_correct (s : S) (b l d : Nat)
    (hbytes : ∀ j, s.mem j < 256) :
    (d + l ≤ s.himem →
      (∀ i, i < l → (moveblock s b l d).mem (d + i) = s.mem (b + i)) ∧
      (∀ j, j < d ∨ d + l ≤ j → (moveblock s b l d).mem j = s.mem j)) ∧
    (d + l > s.himem →
      (moveblock s b l d).er = EOUTOFMEMORY ∧
      (moveblock s b l d).mem = s.mem) := by
  constructor
  · intro hok
    exact ⟨fun i hi => moveblock_copies s b l d hok hbytes i hi,
           fun j hj => moveblock_frame s b l d hok j hj⟩
  · intro hbad
    rw [moveblock, if_pos hbad]
    exact ⟨rfl, rfl⟩

theorem C2_moveblock_correct_witness :
    (∀ j, s0.mem j < 256) ∧
    ((2 + 3 ≤ s0.himem →
      (∀ i, i < 3 → (moveblock s0 0 3 2).mem (2 + i) = s0.mem (0 + i)) ∧
      (∀ j, j < 2 ∨ 2 + 3 ≤ j → (moveblock s0 0 3 2).mem j = s0.mem j)) ∧
    (2 + 3 > s0.himem →
      (moveblock s0 0 3 2).er = EOUTOFMEMORY ∧
      (moveblock s0 0 3 2).mem = s0.mem)) :=
  ⟨fun _ => by simp [s0], C2_moveblock_correct s0 0 3 2 (fun _ => by simp [s0])⟩

/-! ## The evaluation stack -/

def STACKSIZE : Nat := 15

/-- `push(t)`: raises `ESTACK` when the stack is full. -/
def push (s : S) (t : Int) : S :=
  if s.stack.length = STACKSIZE then errorS s ESTACK
  else { s with stack := t :: s.stack }

/-- `pop()`: raises `ESTACK` and yields `0` when the stack is empty
(`if (sp == 0)`). -/
def pop (s : S) : S × Int :=
  if s.stack.isEmpty then (errorS s ESTACK, 0)
  else ({ s with stack := s.stack.tail }, s.stack.headI)

theorem pop_cons (s : S) (v : Int) (rest : List Int) (hs : s.stack = v :: rest) :
    pop s = ({ s with stack := rest }, v) := by
  rw [pop, hs]
  simp

/-! ## `myline` and the `error` routine -/

/-- The scan loop of `myline`. -/
def mylineAux (h : Nat) : Nat → S → Int → Int → S × Int × Int
  | 0, s, l, l1 => (s, l, l1)
  | f + 1, s, l, l1 =>
    if s.here < s.top then
      let p : Int × Int := if s.token = LINENUMBER then (s.x, l) else (l, l1)
      if s.here ≥ h then (s, p.1, p.2)
      else mylineAux h f (gettoken s) p.1 p.2
    else (s, l, l1)

/-- `myline(h)`: the number of the program line containing location `h`,
found by scanning from the start of the program. -/
def myline (s : S) (h : Nat) : Int :=
  let s1 := gettoken { s with here := 0 }
  let r := mylineAux h (s.top + 1) s1 0 0
  if r.1.token = LINENUMBER then r.2.2 else r.2.1

/-- One element of printed output: a number, a character, or one of the
stored messages. -/
inductive OutElem where
  | num (n : Int)
  | ch (c : Nat)
  | msg (i : Int)
  deriving Repr, DecidableEq

/-- The output printed by `error(e)`: when `st != SINT` the current line
number, a colon and a space; then the error message, a space, the
`EGENERAL` message (`"Error"`), and a newline. -/
def errorOut (s : S) (e : Int) : List OutElem :=
  (if s.st ≠ SINT then [OutElem.num (myline s s.here), OutElem.ch 58, OutElem.ch 32]
   else []) ++ [OutElem.msg e, OutElem.ch 32, OutElem.msg EGENERAL, OutElem.ch 10]

/-- C8: after `error(e)` runs, the evaluation stack, the FOR stack and
the GOSUB stack are empty, the input and output stream selections are
back at their defaults, `er` holds the code, and the printed message
carries a line-number prefix exactly when the interpreter is not in
interactive mode. -/
theorem C8_error_resets (s : S) (e : Int) :
    (errorS s e).stack = [] ∧ (errorS s e).forstack = [] ∧
    (errorS s e).gosubstack = [] ∧ (errorS s e).id = s.idd ∧
    (errorS s e).od = s.odd ∧ (errorS s e).er = e ∧
    ((∃ n rest, errorOut s e = OutElem.num n :: rest) ↔ s.st ≠ SINT) := by
  refine ⟨rfl, rfl, rfl, rfl, rfl, rfl, ?_⟩
  constructor
  · rintro ⟨n, rest, hout⟩
    intro hst
    rw [errorOut, if_neg (by simp [hst])] at hout
    simp at hout
  · intro hst
    rw [errorOut, if_pos hst]
    exact ⟨myline s s.here, _, rfl⟩

/-! ## `rnd` -/

/-- `rnd()`: pops the argument, advances the 16-bit generator state
`rd ← (31421·rd + 6927) mod 2^16`, and pushes `(long)rd*r/0x10000`
(C division truncating toward zero), plus one when the argument is
negative. -/
def rnd (s : S) : S :=
  let p := pop s
  let rd' := (31421 * p.1.rd + 6927) % 65536
  let s2 := { p.1 with rd := rd' }
  if p.2 ≥ 0 then push s2 (Int.tdiv ((rd' : Int) * p.2) 65536)
  else push s2 (Int.tdiv ((rd' : Int) * p.2) 65536 + 1)

/-- C9, counterexample: starting from generator state `rd = 0`,
`RND(-1)` advances the state to `6927` and pushes `1`, whereas the
claimed value `⌊6927·(-1)/2^16⌋ + 1` is `0`. -/
theorem C9_rnd_counterexample :
    (rnd { s0 with stack := [-1] }).rd = 6927 ∧
    (rnd { s0 with stack := [-1] }).stack = [1] ∧
    Int.ediv ((6927 : Int) * (-1)) 65536 + 1 = 0 ∧ (1 : Int) ≠ 0 := by
  refine ⟨rfl, by decide, by decide, by decide⟩

/-- C9, amended: each `RND(arg)` call advances the 16-bit state to
`(31421·rd + 6927) mod 2^16`; the value pushed is `⌊rd·arg/2^16⌋` for
nonnegative `arg` and `trunc(rd·arg/2^16) + 1` — division truncating
toward zero, not flooring — for negative `arg`. -/
theorem C9_rnd_amended (s : S) (r : Int) (rest : List Int)
    (hs : s.stack = r :: rest) (hlen : rest.length ≠ STACKSIZE) :
    (rnd s).rd = (31421 * s.rd + 6927) % 65536 ∧
    ((0 : Int) ≤ r →
      (rnd s).stack =
        Int.ediv (((31421 * s.rd + 6927) % 65536 : Nat) * r) 65536 :: rest) ∧
    (r < 0 →
      (rnd s).stack =
        (Int.tdiv (((31421 * s.rd + 6927) % 65536 : Nat) * r) 65536 + 1) :: rest) := by
  have hpop : pop s = ({ s with stack := rest }, r) := pop_cons s r rest hs
  refine ⟨?_, ?_, ?_⟩
  · rw [rnd, hpop]
    by_cases hr : r ≥ 0
    · rw [if_pos hr, push]
      split
      · rfl
      · rfl
    · rw [if_neg hr, push]
      split
      · rfl
      · rfl
  · intro hr
    rw [rnd, hpop]
    dsimp only
    rw [if_pos (by omega)]
    rw [push, if_neg (by simpa using hlen)]
    have hdiv : Int.tdiv (((31421 * s.rd + 6927) % 65536 : Nat) * r) 65536 =
        Int.ediv (((31421 * s.rd + 6927) % 65536 : Nat) * r) 65536 :=
      Int.tdiv_eq_ediv (mul_nonneg (Int.ofNat_nonneg _) hr) (by norm_num)
    rw [hdiv]
  · intro hr
    rw [rnd, hpop]
    dsimp only
    rw [if_neg (by omega)]
    rw [push, if_neg (by simpa using hlen)]

theorem C9_rnd_amended_witness :
    ({ s0 with stack := [5] } : S).stack = (5 : Int) :: [] ∧
    ([] : List Int).length ≠ STACKSIZE ∧
    ((rnd { s0 with stack := [5] }).rd = (31421 * s0.rd + 6927) % 65536 ∧
     ((0 : Int) ≤ 5 →
       (rnd { s0 with stack := [5] }).stack =
         Int.ediv (((31421 * s0.rd + 6927) % 65536 : Nat) * 5) 65536 :: []) ∧
     ((5 : Int) < 0 →
       (rnd { s0 with stack := [5] }).stack =
         (Int.tdiv (((31421 * s0.rd + 6927) % 65536 : Nat) * 5) 65536 + 1) :: [])) :=
  ⟨rfl, by decide, C9_rnd_amended { s0 with stack := [5] } 5 [] rfl (by decide)⟩

/-! ## `peek` and `xpoke` -/

def maxnum : Int := 2147483647

/-- `peek()`: pops the argument into an `address_t` (an unsigned 16-bit
conversion), computes `amax`, and dispatches on the C comparisons; the
negative-address EEPROM branch is written exactly as in the source
(`a < 0 && -a < elength()` on the converted value). -/
def peek (s : S) (elen : Nat) (eeprom : Nat → Int) : S :=
  let p := pop s
  let a : Nat := (p.2 % 65536).toNat
  let amax : Nat := if (p.1.memsize : Int) > maxnum then maxnum.toNat else p.1.memsize
  if (a : Int) ≥ 0 ∧ (a : Int) < (amax : Int) then push p.1 (toSigned (p.1.mem a))
  else if (a : Int) < 0 ∧ -(a : Int) < (elen : Int) then
    push p.1 (eeprom (-(a : Int) - 1).toNat)
  else errorS p.1 ERANGE

/-- `xpoke` after argument parsing: pops the value and the address (the
address through an `address_t` conversion) and dispatches on the same
comparisons as `peek`; the second component reports an EEPROM update,
`none` when no EEPROM write happens. -/
def xpoke (s : S) (elen : Nat) : S × Option (Nat × Int) :=
  let py := pop s
  let pa := pop py.1
  let a : Nat := (pa.2 % 65536).toNat
  let amax : Nat := if (pa.1.memsize : Int) > maxnum then maxnum.toNat else pa.1.memsize
  if (a : Int) ≥ 0 ∧ (a : Int) < (amax : Int) then
    ({ pa.1 with mem := wr pa.1.mem a (toByte py.2) }, none)
  else if (a : Int) < 0 ∧ (a : Int) ≥ -(elen : Int) then
    (pa.1, some ((-(a : Int) - 1).toNat, py.2))
  else (errorS pa.1 ERANGE, none)

/-- C7: on the one hand, `PEEK(a)` for `0 ≤ a <` memory size pushes the
program-memory byte at `a`, as claimed; on the other hand, every
argument in the claimed EEPROM window `-1 … -1024` makes both `PEEK` and
`POKE` raise `RANGE` for every EEPROM length: the popped value is
converted to the unsigned `address_t`, so the negative-address EEPROM
branches (`a < 0 && ...`) can never be taken. -/
theorem C7_peek_poke_negative_is_range_error (s : S) (v : Int) (rest : List Int)
    (elen : Nat) (eeprom : Nat → Int) (hs : s.stack = v :: rest)
    (hm : s.memsize = 59999) (hneg : -1024 ≤ v ∧ v < 0) :
    peek s elen eeprom = errorS { s with stack := rest } ERANGE ∧
    xpoke { s with stack := 0 :: v :: rest } elen =
      (errorS { s with stack := rest } ERANGE, none) ∧
    (∀ a : Nat, a < 59999 →
      peek { s with stack := (a : Int) :: rest } elen eeprom =
        push { s with stack := rest } (toSigned (s.mem a))) := by
  have hamax : (if ((59999 : Nat) : Int) > maxnum then maxnum.toNat else (59999 : Nat))
      = 59999 := by decide
  refine ⟨?_, ?_, ?_⟩
  · rw [peek, pop_cons s v rest hs]
    dsimp only
    rw [hm, hamax]
    rw [if_neg (by omega)]
    rw [if_neg (by omega)]
  · rw [xpoke]
    rw [pop_cons { s with stack := 0 :: v :: rest } 0 (v :: rest) rfl]
    dsimp only
    rw [pop_cons { s with stack := v :: rest } v rest rfl]
    dsimp only
    rw [hm, hamax]
    rw [if_neg (by omega)]
    rw [if_neg (by omega)]
  · intro a ha
    rw [peek, pop_cons { s with stack := (a : Int) :: rest } (a : Int) rest rfl]
    dsimp only
    rw [hm, hamax]
    rw [if_pos (by constructor <;> omega)]
    rw [show ((a : Int) % 65536).toNat = a from by omega]

theorem C7_peek_poke_negative_is_range_error_witness :
    ({ s0 with stack := [-1] } : S).stack = (-1 : Int) :: [] ∧
    ({ s0 with stack := [-1] } : S).memsize = 59999 ∧
    ((-1024 : Int) ≤ -1 ∧ (-1 : Int) < 0) ∧
    (peek { s0 with stack := [-1] } 1024 (fun _ => 0) =
      errorS { { s0 with stack := [-1] } with stack := [] } ERANGE ∧
    xpoke { { s0 with stack := [-1] } with stack := 0 :: (-1 : Int) :: [] } 1024 =
      (errorS { { s0 with stack := [-1] } with stack := [] } ERANGE, none) ∧
    (∀ a : Nat, a < 59999 →
      peek { { s0 with stack := [-1] } with stack := (a : Int) :: [] } 1024 (fun _ => 0) =
        push { { s0 with stack := [-1] } with stack := [] }
          (toSigned (({ s0 with stack := [-1] } : S).mem a)))) :=
  ⟨rfl, rfl, by decide,
    C7_peek_poke_negative_is_range_error { s0 with stack := [-1] } (-1) [] 1024
      (fun _ => 0) rfl rfl (by decide)⟩

/-! ## String assignment (`assignment`, string right-hand side)

A heap string variable, viewed through the access functions: `dim` is
`stringdim` (the capacity minus `strindexsize`), `content` its 1-based
character cells, `len` the logical length stored in the index field. -/

structure StrVar where
  dim : Nat
  content : Nat → Nat
  len : Nat

/-- `setstringlength(c, d, l)` on a heap string: the new length must be
smaller than the object capacity `dim + strindexsize`, else `RANGE`. -/
def setstringlength (sv : StrVar) (l : Nat) : StrVar × Int :=
  if l < sv.dim + strindexsize then ({ sv with len := l }, 0) else (sv, ERANGE)

/-- The string branch of `assignment()` with the source string already
evaluated: `getstring(xcl, ycl, i)` bounds-checks the start index, the
fit check `(i+lensource-1) > stringdim` raises `RANGE`, the copy loop
writes the source bytes at positions `i …`, and the new logical length
is `i+lensource-1` when `i+lensource > lendest` and the old length
otherwise (`HASSTEFANSEXT` is defined, so no truncation).  The two copy
directions of the source (`x > i` ascending, otherwise descending) both
land this content when the source does not alias the destination. -/
def assignString (sv : StrVar) (i : Nat) (src : List Nat) : StrVar × Int :=
  if i < 1 ∨ i > sv.dim then (sv, ERANGE)
  else if i + src.length - 1 > sv.dim then (sv, ERANGE)
  else
    let content' : Nat → Nat := fun p =>
      if i ≤ p ∧ p < i + src.length then src.getD (p - i) 0 else sv.content p
    let newlength : Nat := if i + src.length > sv.len then i + src.length - 1 else sv.len
    setstringlength { sv with content := content' } newlength

/-- `PRINT A$`: the characters at positions `1 … len`. -/
def strOut (sv : StrVar) : List Nat := (List.range sv.len).map (fun j => sv.content (j + 1))

/-- `A$` holding `"HELLO"` in a string dimensioned to 10. -/
def helloVar : StrVar :=
  { dim := 10, content := fun p => [72, 69, 76, 76, 79].getD (p - 1) 0, len := 5 }

/-- C4: with the Stefan extension enabled, a string assignment
`A$(start) = source` whose end `start + |source| - 1` fits the string's
dimension succeeds and sets the logical length to
`max(old_length, start + |source| - 1)`; in particular `A$="HELLO"`
followed by `A$(3)="XY"` makes `PRINT A$` print `HEXYO`. -/
theorem C4_string_assignment_length (sv : StrVar) (i : Nat) (src : List Nat)
    (hi : 1 ≤ i) (hsrc : 1 ≤ src.length) (hfit : i + src.length - 1 ≤ sv.dim)
    (hlen : sv.len ≤ sv.dim) :
    ((assignString sv i src).2 = 0 ∧
     (assignString sv i src).1.len = max sv.len (i + src.length - 1)) ∧
    (strOut (assignString helloVar 3 [88, 89]).1 = [72, 69, 88, 89, 79] ∧
     (assignString helloVar 3 [88, 89]).2 = 0) := by
  refine ⟨?_, by decide, by decide⟩
  rw [assignString]
  rw [if_neg (by omega)]
  rw [if_neg (by omega)]
  rw [setstringlength]
  rw [if_pos (by dsimp only [strindexsize]; split <;> omega)]
  constructor
  · rfl
  · show (if i + src.length > sv.len then i + src.length - 1 else sv.len) = _
    split <;> omega

theorem C4_string_assignment_length_witness :
    (1 ≤ 3 ∧ 1 ≤ ([88, 89] : List Nat).length ∧
     3 + ([88, 89] : List Nat).length - 1 ≤ helloVar.dim ∧
     helloVar.len ≤ helloVar.dim) ∧
    (((assignString helloVar 3 [88, 89]).2 = 0 ∧
      (assignString helloVar 3 [88, 89]).1.len =
        max helloVar.len (3 + ([88, 89] : List Nat).length - 1)) ∧
     (strOut (assignString helloVar 3 [88, 89]).1 = [72, 69, 88, 89, 79] ∧
      (assignString helloVar 3 [88, 89]).2 = 0)) :=
  ⟨⟨by decide, by decide, by decide, by decide⟩,
    C4_string_assignment_length helloVar 3 [88, 89] (by decide) (by decide)
      (by decide) (by decide)⟩

/-! ## Tokens as stored by `storetoken`

A `Tok` is one stored token of a line body: a `NUMBER` with its payload,
a variable with its two name characters, a string literal with its
bytes, or any other single-byte token (operators and keyword codes).
`LINENUMBER` records are handled separately by the line layer; `EOL`
terminates tokenization and is never stored. -/

inductive Tok where
  | num (v : Int)
  | varT (c d : Nat)
  | arrT (c d : Nat)
  | strT (c d : Nat)
  | strlit (cs : List Nat)
  | other (c : Nat)
  deriving Repr, DecidableEq

/-- The token code carried by a `Tok` (the tag byte, as a signed char). -/
def tokCode : Tok → Int
  | .num _ => NUMBER
  | .varT _ _ => VARIABLE
  | .arrT _ _ => ARRAYVAR
  | .strT _ _ => STRINGVAR
  | .strlit _ => STRING
  | .other c => toSigned c

/-- The bytes `storetoken` appends for one token: the tag byte, then the
payload (`NUMBER`: `numsize` bytes; variables: two name bytes; `STRING`:
a length byte and the characters; default: nothing). -/
def encTok : Tok → List Nat
  | .num v => toByte NUMBER :: encNum v
  | .varT c d => [toByte VARIABLE, c % 256, d % 256]
  | .arrT c d => [toByte ARRAYVAR, c % 256, d % 256]
  | .strT c d => [toByte STRINGVAR, c % 256, d % 256]
  | .strlit cs => toByte STRING :: cs.length % 256 :: cs.map (· % 256)
  | .other c => [c % 256]

/-- Well-formedness of a stored body token: string literals fit their
length byte, and a plain byte token is none of the special codes
(`EOL`, `NUMBER`, `LINENUMBER`, `STRING`, the three variable codes) —
the interactive tokenizer produces those only through the dedicated
constructors. -/
def Tok.ok : Tok → Bool
  | .strlit cs => cs.length < 256
  | .other c => c < 256 && !(toSigned c = EOL) && !(toSigned c = NUMBER) &&
      !(toSigned c = LINENUMBER) && !(toSigned c = STRING) &&
      !(toSigned c = VARIABLE) && !(toSigned c = STRINGVAR) &&
      !(toSigned c = ARRAYVAR)
  | _ => true

/-- The bytes of a list of body tokens. -/
def encToks (ts : List Tok) : List Nat := (ts.map encTok).flatten

/-- The byte list `bs` lies in memory `m` starting at address `a`. -/
def fits (m : Mem) : Nat → List Nat → Prop
  | _, [] => True
  | a, b :: bs => m a = b ∧ fits m (a + 1) bs

theorem fits_append (m : Mem) (a : Nat) (bs cs : List Nat) :
    fits m a (bs ++ cs) ↔ fits m a bs ∧ fits m (a + bs.length) cs := by
  induction bs generalizing a with
  | nil => simp [fits]
  | cons b bs ih =>
    rw [List.cons_append]
    show (m a = b ∧ fits m (a + 1) (bs ++ cs)) ↔
      (m a = b ∧ fits m (a + 1) bs) ∧ fits m (a + (b :: bs).length) cs
    rw [ih (a + 1), List.length_cons,
      show a + (bs.length + 1) = a + 1 + bs.length from by omega]
    tauto

theorem encTok_length_pos (t : Tok) : 0 < (encTok t).length := by
  cases t <;> simp [encTok]

theorem encTok_ne_nil (t : Tok) : encTok t ≠ [] := by
  cases t <;> simp [encTok]

/-- Reading one well-formed stored token: `gettoken` returns its code
and advances `here` over exactly its bytes; only the payload registers
`x`, `xc`, `yc` besides `token` and `here` can change. -/
theorem gettoken_enc (s : S) (t : Tok) (hok : t.ok = true)
    (hfits : fits s.mem s.here (encTok t)) (hin : s.here < s.top) :
    ∃ x' xc' yc', gettoken s =
      { s with token := tokCode t, here := s.here + (encTok t).length,
               x := x', xc := xc', yc := yc' } := by
  rw [gettoken, if_neg (by omega)]
  dsimp only
  cases t with
  | num v =>
    rcases hfits with ⟨h1, _⟩
    rw [h1]
    rw [show toSigned (toByte NUMBER) = NUMBER from by decide]
    rw [if_neg (by decide), if_pos rfl]
    refine ⟨getnum4 s.mem (s.here + 1), s.xc, s.yc, ?_⟩
    dsimp only [tokCode, encTok, numsize]
    congr 1
  | varT c d =>
    rcases hfits with ⟨h1, _⟩
    rw [h1]
    rw [show toSigned (toByte VARIABLE) = VARIABLE from by decide]
    rw [if_neg (by decide), if_neg (by decide), if_pos (by right; left; rfl)]
    refine ⟨s.x, s.mem (s.here + 1) % 256, s.mem (s.here + 1 + 1) % 256, ?_⟩
    dsimp only [tokCode, encTok]
    congr 1
  | arrT c d =>
    rcases hfits with ⟨h1, _⟩
    rw [h1]
    rw [show toSigned (toByte ARRAYVAR) = ARRAYVAR from by decide]
    rw [if_neg (by decide), if_neg (by decide), if_pos (by left; rfl)]
    refine ⟨s.x, s.mem (s.here + 1) % 256, s.mem (s.here + 1 + 1) % 256, ?_⟩
    dsimp only [tokCode, encTok]
    congr 1
  | strT c d =>
    rcases hfits with ⟨h1, _⟩
    rw [h1]
    rw [show toSigned (toByte STRINGVAR) = STRINGVAR from by decide]
    rw [if_neg (by decide), if_neg (by decide), if_pos (by right; right; rfl)]
    refine ⟨s.x, s.mem (s.here + 1) % 256, s.mem (s.here + 1 + 1) % 256, ?_⟩
    dsimp only [tokCode, encTok]
    congr 1
  | strlit cs =>
    rcases hfits with ⟨h1, h2, _⟩
    rw [h1]
    rw [show toSigned (toByte STRING) = STRING from by decide]
    rw [if_neg (by decide), if_neg (by decide), if_neg (by decide), if_pos rfl]
    have hlen : cs.length < 256 := by simpa [Tok.ok] using hok
    refine ⟨(s.mem (s.here + 1) % 256 : Nat), s.xc, s.yc, ?_⟩
    rw [h2]
    dsimp only [tokCode, encTok]
    congr 1
    simp only [List.length_cons, List.length_map]
    omega
  | other c =>
    rcases hfits with ⟨h1, _⟩
    rw [h1]
    simp only [Tok.ok, Bool.and_eq_true, decide_eq_true_eq, Bool.not_eq_true',
      decide_eq_false_iff_not] at hok
    obtain ⟨⟨⟨⟨⟨⟨⟨hc, hE⟩, hN⟩, hL⟩, hS⟩, hV⟩, hSV⟩, hAV⟩ := hok
    have hts : toSigned (c % 256) = toSigned c := by
      simp [toSigned]
    rw [hts]
    rw [if_neg hL, if_neg hN, if_neg (by push_neg; exact ⟨hAV, hV, hSV⟩), if_neg hS]
    refine ⟨s.x, s.xc, s.yc, ?_⟩
    dsimp only [tokCode, encTok]
    congr 1

theorem gettoken_forstack (s : S) : (gettoken s).forstack = s.forstack := by
  simp only [gettoken]
  repeat' split
  all_goals rfl

theorem gettoken_vars (s : S) : (gettoken s).vars = s.vars := by
  simp only [gettoken]
  repeat' split
  all_goals rfl

theorem gettoken_stack (s : S) : (gettoken s).stack = s.stack := by
  simp only [gettoken]
  repeat' split
  all_goals rfl

theorem encToks_length_ge (ts : List Tok) : ts.length ≤ (encToks ts).length := by
  induction ts with
  | nil => simp [encToks]
  | cons t ts ih =>
    have h1 : 0 < (encTok t).length := encTok_length_pos t
    simp only [encToks, List.map_cons, List.flatten_cons, List.length_append,
      List.length_cons]
    simp only [encToks] at ih
    omega

/-! ## Variables (static array branch) and the FOR stack -/

/-- `getvar` for a static name (`c >= 65 && c <= 91 && d == 0`): the
static array `vars`.  The `@` pseudo-variables and heap variables are
modelled by the heap layer and are outside the FOR/NEXT theorems, whose
loop variables are static. -/
def getvarStatic (s : S) (c d : Nat) : Int :=
  if 65 ≤ c ∧ c ≤ 91 ∧ d = 0 then s.vars (c - 65) else 0

/-- `setvar` for a static name. -/
def setvarStatic (s : S) (c d : Nat) (v : Int) : S :=
  if 65 ≤ c ∧ c ≤ 91 ∧ d = 0 then
    { s with vars := fun j => if j = c - 65 then v else s.vars j }
  else s

def FORDEPTH : Nat := 4

instance : Inhabited FRec := ⟨⟨0, 0, 0, 0, 0⟩⟩

/-- `pushforstack()`: records `(xc, yc, here, x, y)`; overflow raises
the `FOR` error. -/
def pushforstack (s : S) : S :=
  if s.forstack.length < FORDEPTH then
    { s with forstack := ⟨s.xc, s.yc, s.here, s.x, s.y⟩ :: s.forstack }
  else errorS s EFOR

/-- `popforstack()`: underflow raises the `FOR` error; otherwise loads
`(xc, yc, here, x, y)` from the top record. -/
def popforstack (s : S) : S :=
  if s.forstack.isEmpty then errorS s EFOR
  else
    let r := s.forstack.headI
    { s with forstack := s.forstack.tail, xc := r.varx, yc := r.vary,
             here := r.hereR, x := r.toR, y := r.stepR }

/-- `dropforstack()`. -/
def dropforstack (s : S) : S :=
  if s.forstack.isEmpty then errorS s EFOR
  else { s with forstack := s.forstack.tail }

/-- `termsymbol()`: `LINENUMBER`, `':'` or `EOL`. -/
def termsymbol (s : S) : Bool :=
  s.token = LINENUMBER || s.token = 58 || s.token = EOL

/-- `nexttoken()` in run mode (`st == SRUN || st == SERUN`): delegates
to `gettoken`. -/
def nexttokenR (s : S) : S := gettoken s

/-- The loop of `findnext()`: returns at a `TNEXT` with nesting counter
`fnc` zero, decrements `fnc` at other `TNEXT`s, increments it at `TFOR`,
and raises an error (with the token value `TFOR` as code, as the source
does) when the end of the program is reached. -/
def findnextAux : Nat → S → S
  | 0, s => s
  | f + 1, s =>
    if s.token = TNEXT ∧ s.fnc = 0 then s
    else
      let s1 := if s.token = TNEXT then { s with fnc := s.fnc - 1 }
                else if s.token = TFOR then { s with fnc := s.fnc + 1 } else s
      if s1.here ≥ s1.top then errorS s1 TFOR
      else findnextAux f (nexttokenR s1)

def findnext (s : S) : S := findnextAux (s.top + 2) s

/-- The index of the matching `NEXT` in a token stream, at nesting depth
`d`: the first `TNEXT` token with all intervening `TFOR`/`TNEXT` pairs
balanced. -/
def matchNext : Nat → List Tok → Option Nat
  | _, [] => none
  | d, t :: ts =>
    if tokCode t = TNEXT then
      if d = 0 then some 0 else (matchNext (d - 1) ts).map (· + 1)
    else if tokCode t = TFOR then (matchNext (d + 1) ts).map (· + 1)
    else (matchNext d ts).map (· + 1)

/-- The tail of `xfor()` from `x=pop()` on, in run mode (`st != SINT`):
capture the limit, push the loop record, and — when the entry test
fires — drop the record, scan to the matching `NEXT` and consume it. -/
def xforTail (s : S) (xcl ycl : Nat) : S :=
  let p := pop s
  let s1 := { p.1 with x := p.2, xc := xcl, yc := ycl }
  let s2 := pushforstack s1
  if s2.er ≠ 0 then s2
  else if (s2.y > 0 ∧ getvarStatic s2 s2.xc s2.yc > s2.x) ∨
          (s2.y < 0 ∧ getvarStatic s2 s2.xc s2.yc < s2.x) then
    nexttokenR (findnext (dropforstack s2))
  else s2

/-- The `backtofor` tail of `xnext()` in run mode: re-push the record
and continue at the loop body. -/
def xnextBack (s : S) : S := nexttokenR (pushforstack s)

/-- `xnext()` from the label `plainnext` on: `xcl`/`ycl` are the parsed
variable name (0 when `NEXT` was bare). -/
def xnextGo (s : S) (xcl ycl : Nat) : S :=
  let h := s.here
  let s1 := popforstack s
  if xcl ≠ 0 ∧ (xcl ≠ s1.xc ∨ ycl ≠ s1.yc) then errorS s1 EFOR
  else if s1.y = 0 then xnextBack s1
  else
    let t := getvarStatic s1 s1.xc s1.yc + s1.y
    let s2 := setvarStatic s1 s1.xc s1.yc t
    if s2.y > 0 ∧ t ≤ s2.x then xnextBack s2
    else if s2.y < 0 ∧ t ≥ s2.x then xnextBack s2
    else nexttokenR { s2 with here := h }

/-- `xnext()`: parse an optional variable name, then run from
`plainnext`. -/
def xnext (s : S) : S :=
  let s1 := nexttokenR s
  if termsymbol s1 then xnextGo s1 0 0
  else if s1.token = VARIABLE then
    let s2 := nexttokenR s1
    if ¬ termsymbol s2 then errorS s2 EUNKNOWN
    else xnextGo s2 s1.xc s1.yc
  else xnextGo s1 0 0

/-- Running the `findnext` loop over an encoded token stream: with
current token `tok0` and the bytes of `toks` ahead of the cursor, the
loop stops exactly at the matching `NEXT` computed by `matchNext`,
leaving the cursor right after its bytes and the nesting counter at
zero; only the payload registers can change besides `here`, `token` and
`fnc`. -/
theorem findnextAux_run (toks : List Tok) : ∀ (tok0 : Tok) (s : S) (f j : Nat),
    (∀ t ∈ toks, t.ok = true) →
    s.token = tokCode tok0 →
    fits s.mem s.here (encToks toks) →
    s.here + (encToks toks).length ≤ s.top →
    matchNext s.fnc (tok0 :: toks) = some j →
    toks.length < f →
    ∃ x' xc' yc', findnextAux f s =
      { s with here := s.here + (encToks (List.take j toks)).length,
               token := TNEXT, fnc := 0, x := x', xc := xc', yc := yc' } := by
  induction toks with
  | nil =>
    intro tok0 s f j htoks hcur hfits hbound hmatch hf
    obtain ⟨f', rfl⟩ : ∃ f', f = f' + 1 := ⟨f - 1, by omega⟩
    rw [matchNext] at hmatch
    by_cases ht : tokCode tok0 = TNEXT
    · rw [if_pos ht] at hmatch
      by_cases hd : s.fnc = 0
      · rw [if_pos hd] at hmatch
        obtain rfl : j = 0 := by
          have := Option.some.inj hmatch
          omega
        rw [findnextAux, if_pos ⟨by rw [hcur]; exact ht, hd⟩]
        refine ⟨s.x, s.xc, s.yc, ?_⟩
        cases s
        simp_all [encToks]
      · rw [if_neg hd] at hmatch
        simp [matchNext] at hmatch
    · rw [if_neg ht] at hmatch
      split at hmatch
      all_goals simp [matchNext] at hmatch
  | cons t1 rest ih =>
    intro tok0 s f j htoks hcur hfits hbound hmatch hf
    obtain ⟨f', rfl⟩ : ∃ f', f = f' + 1 := ⟨f - 1, by omega⟩
    rw [List.length_cons] at hf
    have hok1 : t1.ok = true := htoks t1 (by simp)
    have htoksr : ∀ t ∈ rest, t.ok = true := fun t ht => htoks t (by simp [ht])
    rw [show encToks (t1 :: rest) = encTok t1 ++ encToks rest from by
      simp [encToks]] at hfits hbound
    rw [fits_append] at hfits
    obtain ⟨hfit1, hfitr⟩ := hfits
    rw [List.length_append] at hbound
    have hpos1 := encTok_length_pos t1
    have hlt : s.here < s.top := by omega
    by_cases hstop : s.token = TNEXT ∧ s.fnc = 0
    · rw [matchNext, if_pos (by rw [← hcur]; exact hstop.1), if_pos hstop.2] at hmatch
      obtain rfl : j = 0 := by
        have := Option.some.inj hmatch
        omega
      rw [findnextAux, if_pos hstop]
      refine ⟨s.x, s.xc, s.yc, ?_⟩
      cases s
      simp_all [encToks]
    · rw [findnextAux, if_neg hstop]
      rw [matchNext] at hmatch
      by_cases ht : tokCode tok0 = TNEXT
      · have hd : s.fnc ≠ 0 := fun h => hstop ⟨by rw [hcur]; exact ht, h⟩
        rw [if_pos ht, if_neg hd, Option.map_eq_some'] at hmatch
        obtain ⟨j', hj', rfl⟩ := hmatch
        have hcur' : s.token = TNEXT := by rw [hcur]; exact ht
        have hs1 : (if s.token = TNEXT then { s with fnc := s.fnc - 1 }
            else if s.token = TFOR then { s with fnc := s.fnc + 1 } else s) =
            { s with fnc := s.fnc - 1 } := by
          rw [if_pos hcur']
        rw [hs1]
        rw [if_neg (show ¬ ({ s with fnc := s.fnc - 1 } : S).here ≥
          ({ s with fnc := s.fnc - 1 } : S).top from by dsimp only; omega)]
        obtain ⟨xa, xca, yca, hgt⟩ := gettoken_enc { s with fnc := s.fnc - 1 } t1 hok1
          hfit1 hlt
        rw [show nexttokenR { s with fnc := s.fnc - 1 } =
          gettoken { s with fnc := s.fnc - 1 } from rfl, hgt]
        obtain ⟨x', xc', yc', hrun⟩ := ih t1
          { s with fnc := s.fnc - 1, token := tokCode t1,
                   here := s.here + (encTok t1).length, x := xa, xc := xca, yc := yca }
          f' j' htoksr rfl hfitr (by dsimp only; omega)
          (by dsimp only; exact hj') (by omega)
        refine ⟨x', xc', yc', ?_⟩
        rw [hrun]
        cases s
        simp only [List.take_succ_cons, S.mk.injEq, true_and, and_true]
        simp only [encToks, List.map_cons, List.flatten_cons, List.length_append]
        omega
      · rw [if_neg ht] at hmatch
        have hcur' : ¬ s.token = TNEXT := by rw [hcur]; exact ht
        by_cases htf : tokCode tok0 = TFOR
        · rw [if_pos htf, Option.map_eq_some'] at hmatch
          obtain ⟨j', hj', rfl⟩ := hmatch
          have hcur2 : s.token = TFOR := by rw [hcur]; exact htf
          have hs1 : (if s.token = TNEXT then { s with fnc := s.fnc - 1 }
              else if s.token = TFOR then { s with fnc := s.fnc + 1 } else s) =
              { s with fnc := s.fnc + 1 } := by
            rw [if_neg hcur', if_pos hcur2]
          rw [hs1]
          rw [if_neg (show ¬ ({ s with fnc := s.fnc + 1 } : S).here ≥
            ({ s with fnc := s.fnc + 1 } : S).top from by dsimp only; omega)]
          obtain ⟨xa, xca, yca, hgt⟩ := gettoken_enc { s with fnc := s.fnc + 1 } t1 hok1
            hfit1 hlt
          rw [show nexttokenR { s with fnc := s.fnc + 1 } =
            gettoken { s with fnc := s.fnc + 1 } from rfl, hgt]
          obtain ⟨x', xc', yc', hrun⟩ := ih t1
            { s with fnc := s.fnc + 1, token := tokCode t1,
                     here := s.here + (encTok t1).length, x := xa, xc := xca, yc := yca }
            f' j' htoksr rfl hfitr (by dsimp only; omega)
            (by dsimp only; exact hj') (by omega)
          refine ⟨x', xc', yc', ?_⟩
          rw [hrun]
          cases s
          simp only [List.take_succ_cons, S.mk.injEq, true_and, and_true]
          simp only [encToks, List.map_cons, List.flatten_cons, List.length_append]
          omega
        · rw [if_neg htf, Option.map_eq_some'] at hmatch
          obtain ⟨j', hj', rfl⟩ := hmatch
          have hcur2 : ¬ s.token = TFOR := by rw [hcur]; exact htf
          have hs1 : (if s.token = TNEXT then { s with fnc := s.fnc - 1 }
              else if s.token = TFOR then { s with fnc := s.fnc + 1 } else s) = s := by
            rw [if_neg hcur', if_neg hcur2]
          rw [hs1]
          rw [if_neg (show ¬ s.here ≥ s.top from by omega)]
          obtain ⟨xa, xca, yca, hgt⟩ := gettoken_enc s t1 hok1 hfit1 hlt
          rw [show nexttokenR s = gettoken s from rfl, hgt]
          obtain ⟨x', xc', yc', hrun⟩ := ih t1
            { s with token := tokCode t1, here := s.here + (encTok t1).length,
                     x := xa, xc := xca, yc := yca }
            f' j' htoksr rfl hfitr (by dsimp only; omega)
            (by dsimp only; exact hj') (by omega)
          refine ⟨x', xc', yc', ?_⟩
          rw [hrun]
          cases s
          simp only [List.take_succ_cons, S.mk.injEq, true_and, and_true]
          simp only [encToks, List.map_cons, List.flatten_cons, List.length_append]
          omega

theorem popforstack_cons (s : S) (r : FRec) (rest : List FRec)
    (h : s.forstack = r :: rest) :
    popforstack s = { s with forstack := rest, xc := r.varx, yc := r.vary,
                             here := r.hereR, x := r.toR, y := r.stepR } := by
  rw [popforstack, h]
  simp

theorem pushforstack_ok (s : S) (h : s.forstack.length < FORDEPTH) :
    pushforstack s = { s with forstack := ⟨s.xc, s.yc, s.here, s.x, s.y⟩ :: s.forstack } := by
  rw [pushforstack, if_pos h]

theorem dropforstack_cons (s : S) (r : FRec) (rest : List FRec)
    (h : s.forstack = r :: rest) :
    dropforstack s = { s with forstack := rest } := by
  rw [dropforstack, h]
  simp

theorem getvarStatic_eq (s : S) (c d : Nat) (h : 65 ≤ c ∧ c ≤ 91 ∧ d = 0) :
    getvarStatic s c d = s.vars (c - 65) := by
  rw [getvarStatic, if_pos h]

/-- C5: (entry test) when the step is positive and the initial value of
the loop variable exceeds the limit, or the step is negative and the
value is below the limit, `xfor` pops the freshly pushed loop record and
scans forward to the matching `NEXT` — respecting nesting — consuming
it; the FOR stack is left as it was and no error is raised.  (step 0)
when the step recorded on the FOR stack is zero, `xnext` transfers
control straight back to the loop body: the cursor is restored from the
record, the record stays on the stack, and no variable is incremented,
so the loop never terminates through the step test. -/
theorem C5_for_entry_test_and_step_zero
    (s : S) (xcl ycl : Nat) (lim : Int) (rest : List Int)
    (tok0 : Tok) (toks : List Tok) (j : Nat)
    (sn : S) (r : FRec) (frest : List FRec)
    (hstack : s.stack = lim :: rest)
    (hstatic : 65 ≤ xcl ∧ xcl ≤ 91 ∧ ycl = 0)
    (hskip : (s.y > 0 ∧ s.vars (xcl - 65) > lim) ∨ (s.y < 0 ∧ s.vars (xcl - 65) < lim))
    (hdepth : s.forstack.length < FORDEPTH)
    (her : s.er = 0)
    (hfnc : s.fnc = 0)
    (hcur : s.token = tokCode tok0)
    (htoks : ∀ t ∈ toks, t.ok = true)
    (hfits : fits s.mem s.here (encToks toks))
    (hbound : s.here + (encToks toks).length ≤ s.top)
    (hmatch : matchNext 0 (tok0 :: toks) = some j)
    (hsn : sn.forstack = r :: frest)
    (hsnd : sn.forstack.length ≤ FORDEPTH)
    (hstep : r.stepR = 0)
    (hterm : termsymbol (nexttokenR sn) = true) :
    (∃ sf, xforTail s xcl ycl = nexttokenR sf ∧
       sf.forstack = s.forstack ∧ sf.stack = rest ∧
       sf.here = s.here + (encToks (List.take j toks)).length ∧
       sf.token = TNEXT ∧ sf.er = 0 ∧ sf.mem = s.mem ∧ sf.top = s.top) ∧
    (∃ sb, xnext sn = nexttokenR sb ∧ sb.here = r.hereR ∧
       sb.forstack = sn.forstack ∧ sb.vars = sn.vars ∧ sb.er = sn.er) := by
  constructor
  · rw [xforTail, pop_cons s lim rest hstack]
    dsimp only
    rw [pushforstack_ok _ (by dsimp only; exact hdepth)]
    dsimp only
    rw [her]
    rw [if_neg (by simp)]
    rw [getvarStatic_eq _ _ _ hstatic]
    dsimp only
    rw [if_pos hskip]
    rw [dropforstack_cons _ _ _ rfl]
    rw [findnext]
    dsimp only
    obtain ⟨x', xc', yc', hrun⟩ := findnextAux_run toks tok0
      { s with stack := rest, x := lim, xc := xcl, yc := ycl, er := 0 }
      (s.top + 2) j htoks (by dsimp only; exact hcur) (by dsimp only; exact hfits)
      (by dsimp only; exact hbound) (by dsimp only; rw [hfnc]; exact hmatch)
      (by have h1 := encToks_length_ge toks; omega)
    dsimp only at hrun
    rw [hrun]
    refine ⟨_, rfl, rfl, rfl, rfl, rfl, rfl, rfl, rfl⟩
  · rw [xnext]
    rw [if_pos hterm]
    rw [xnextGo]
    rw [popforstack_cons (nexttokenR sn) r frest (by rw [nexttokenR, gettoken_forstack]; exact hsn)]
    rw [if_neg (by simp)]
    rw [if_pos (by dsimp only; exact hstep)]
    rw [xnextBack]
    rw [pushforstack_ok _ (by
      dsimp only
      rw [hsn] at hsnd
      simp only [List.length_cons, FORDEPTH] at hsnd ⊢
      omega)]
    refine ⟨_, rfl, rfl, ?_, ?_, ?_⟩
    · dsimp only
      rw [← hsn]
    · dsimp only
      rw [nexttokenR, gettoken_vars]
    · dsimp only
      rw [nexttokenR, gettoken_er]

/-- Bytes of the single token `NEXT` (code `-108`, byte `148`). -/
def forMem : Mem := fun a => if a = 0 then 148 else 0

def forVars : Nat → Int := fun j => if j = 8 then 5 else 0

/-- A state in run mode right after parsing `FOR I = 5 TO 3`: the
current token is `':'`, one `NEXT` token ahead, `I = 5` stored. -/
def sA : S := { s0 with mem := forMem, top := 1, token := 58, stack := [3],
                        y := 1, vars := forVars }

def rB : FRec := ⟨73, 0, 0, 10, 0⟩

/-- A state at a bare `NEXT` whose FOR record has step 0. -/
def sB : S := { s0 with forstack := [rB] }

theorem C5_for_entry_test_and_step_zero_witness :
    (sA.stack = (3 : Int) :: [] ∧ (65 ≤ 73 ∧ 73 ≤ 91 ∧ (0 : Nat) = 0) ∧
     ((sA.y > 0 ∧ sA.vars (73 - 65) > 3) ∨ (sA.y < 0 ∧ sA.vars (73 - 65) < 3)) ∧
     sA.forstack.length < FORDEPTH ∧ sA.er = 0 ∧ sA.fnc = 0 ∧
     sA.token = tokCode (Tok.other 58) ∧ (∀ t ∈ [Tok.other 148], t.ok = true) ∧
     fits sA.mem sA.here (encToks [Tok.other 148]) ∧
     sA.here + (encToks [Tok.other 148]).length ≤ sA.top ∧
     matchNext 0 (Tok.other 58 :: [Tok.other 148]) = some 1 ∧
     sB.forstack = rB :: [] ∧ sB.forstack.length ≤ FORDEPTH ∧ rB.stepR = 0 ∧
     termsymbol (nexttokenR sB) = true) ∧
    ((∃ sf, xforTail sA 73 0 = nexttokenR sf ∧
       sf.forstack = sA.forstack ∧ sf.stack = [] ∧
       sf.here = sA.here + (encToks (List.take 1 [Tok.other 148])).length ∧
       sf.token = TNEXT ∧ sf.er = 0 ∧ sf.mem = sA.mem ∧ sf.top = sA.top) ∧
     (∃ sb, xnext sB = nexttokenR sb ∧ sb.here = rB.hereR ∧
       sb.forstack = sB.forstack ∧ sb.vars = sB.vars ∧ sb.er = sB.er)) :=
  ⟨⟨rfl, by decide, by decide, by decide, rfl, rfl, by decide, by decide,
    ⟨rfl, trivial⟩, by decide, by decide, rfl, by decide, rfl, by decide⟩,
   C5_for_entry_test_and_step_zero sA 73 0 3 [] (Tok.other 58) [Tok.other 148] 1
     sB rB [] rfl (by decide) (by decide) (by decide) rfl rfl (by decide)
     (by decide) ⟨rfl, trivial⟩ (by decide) (by decide) rfl (by decide) rfl
     (by decide)⟩

/-! ## C6: `NEXT` with a mismatching variable -/

/-- Bytes of the single token `VARIABLE J` (tag byte `132`, name `J`, no
second character). -/
def nextMem : Mem := fun a => if a = 0 then 132 else if a = 1 then 74 else 0

/-- A state at `NEXT J` in run mode while the top FOR record belongs to
`I`. -/
def sC6 : S := { s0 with mem := nextMem, top := 3, token := TNEXT,
                         forstack := [⟨73, 0, 0, 10, 1⟩] }

/-- C6, counterexample: executing `NEXT J` while the top FOR record
names `I` raises the `FOR` error (code 11), not the `NEXT` error
(code 9) that the claim demands. -/
theorem C6_next_mismatch_counterexample :
    (nexttokenR sC6).token = VARIABLE ∧ (nexttokenR sC6).xc = 74 ∧
    sC6.forstack.headI.varx = 73 ∧
    (xnext sC6).er = EFOR ∧ (xnext sC6).er ≠ ENEXT := by
  refine ⟨by decide, by decide, by decide, by decide, by decide⟩

/-- C6, amended: when the variable named by a `NEXT` differs from the
variable recorded in the top FOR-stack record, the interpreter raises
the `FOR` error (`error(EFOR)` in `xnext`), not the `NEXT` error. -/
theorem C6_next_mismatch_raises_for_error (s : S) (r : FRec) (frest : List FRec)
    (hfs : s.forstack = r :: frest)
    (hvar : (nexttokenR s).token = VARIABLE)
    (hxc : (nexttokenR s).xc ≠ 0)
    (hterm2 : termsymbol (nexttokenR (nexttokenR s)) = true)
    (hmm : (nexttokenR s).xc ≠ r.varx ∨ (nexttokenR s).yc ≠ r.vary) :
    (xnext s).er = EFOR ∧ EFOR ≠ ENEXT := by
  constructor
  · rw [xnext]
    rw [if_neg (by simp only [termsymbol, hvar]; decide)]
    rw [if_pos hvar]
    rw [if_neg (by simp [hterm2])]
    rw [xnextGo]
    rw [popforstack_cons (nexttokenR (nexttokenR s)) r frest
      (by rw [nexttokenR, gettoken_forstack, nexttokenR, gettoken_forstack]; exact hfs)]
    rw [if_pos ?hcond]
    case hcond =>
      refine ⟨hxc, ?_⟩
      dsimp only
      exact hmm
    rfl
  · decide

theorem C6_next_mismatch_raises_for_error_witness :
    (sC6.forstack = (⟨73, 0, 0, 10, 1⟩ : FRec) :: [] ∧
     (nexttokenR sC6).token = VARIABLE ∧ (nexttokenR sC6).xc ≠ 0 ∧
     termsymbol (nexttokenR (nexttokenR sC6)) = true ∧
     ((nexttokenR sC6).xc ≠ (⟨73, 0, 0, 10, 1⟩ : FRec).varx ∨
      (nexttokenR sC6).yc ≠ (⟨73, 0, 0, 10, 1⟩ : FRec).vary)) ∧
    ((xnext sC6).er = EFOR ∧ EFOR ≠ ENEXT) :=
  ⟨⟨rfl, by decide, by decide, by decide, by decide⟩,
   C6_next_mismatch_raises_for_error sC6 ⟨73, 0, 0, 10, 1⟩ [] rfl (by decide)
     (by decide) (by decide) (by decide)⟩

/-! ## The heap allocator: `bmalloc`, `bfind`, `blength`

Heap objects live downward from `memsize`: a 3-byte header `[c, d, t]`
written at decreasing addresses, then — for arrays and strings — a
2-byte capacity field, then the payload.  `HObj` records an object's
type code, name characters and payload size in bytes. -/

structure HObj where
  t : Int
  c : Nat
  d : Nat
  psize : Nat
  deriving Repr, DecidableEq

/-- The total footprint of an object (`vsize` in `bmalloc`). -/
def objSize (o : HObj) : Nat :=
  if o.t = VARIABLE then numsize + 3 else o.psize + addrsize + 3

/-- The length `bfind` reports in `z.a` for an object. -/
def zaOf (o : HObj) : Nat := if o.t = VARIABLE then numsize else o.psize

def objsSize (objs : List HObj) : Nat := (objs.map objSize).sum

/-- The heap layout below scan position `b`: each object's header (and,
for arrays and strings, its capacity field) is in memory, one object
after the other going down. -/
def HeapRep (m : Mem) : Nat → List HObj → Prop
  | _, [] => True
  | b, o :: rest =>
    m b = o.c ∧ m (b - 1) = o.d ∧ toSigned (m (b - 2)) = o.t ∧
    (o.t ≠ VARIABLE → getaddr m (b - 4) = o.psize) ∧
    objSize o ≤ b ∧ HeapRep m (b - objSize o) rest

/-- The scan loop of `bfind`: `nvars` steps downward from `memsize`,
reading the header, the capacity for non-scalars, then skipping the
payload; a match returns the payload's low address and its length.  The
pair carries the returned address (0 = not found) and the side effect
`z.a`. -/
def bfindAux (m : Mem) (t : Int) (c d : Nat) : Nat → Nat → Nat × Nat
  | 0, _ => (0, 0)
  | i + 1, b =>
    let c1 := m b
    let d1 := m (b - 1)
    let t1 := toSigned (m (b - 2))
    let za := if t1 = VARIABLE then numsize else getaddr m (b - 4)
    let b2 := (if t1 = VARIABLE then b - 3 else b - 5) - za
    if c1 = c ∧ d1 = d ∧ t1 = t then (b2 + 1, za) else bfindAux m t c d i b2

def bfind (s : S) (t : Int) (c d : Nat) : Nat × Nat :=
  bfindAux s.mem t c d s.nvars s.memsize

/-- `blength(t, c, d)`: 0 when `bfind` fails, else the length `z.a` it
left behind. -/
def blength (s : S) (t : Int) (c d : Nat) : Nat :=
  if (bfind s t c d).1 = 0 then 0 else (bfind s t c d).2

/-- The space `bmalloc` requires for a payload of `l` units. -/
def vsizeOf (t : Int) (l : Nat) : Nat :=
  if t = VARIABLE then numsize + 3
  else if t = ARRAYVAR then numsize * l + addrsize + 3
  else l + addrsize + 3

/-- `bmalloc(t, c, d, l)`: refuse when the object exists, check room,
write the header (and capacity for arrays/strings), lower `himem`,
count the variable and return the payload's low address. -/
def bmalloc (s : S) (t : Int) (c d : Nat) (l : Nat) : S × Nat :=
  if (bfind s t c d).1 ≠ 0 then (errorS s EVARIABLE, 0)
  else if s.himem - s.top < vsizeOf t l then (errorS s EOUTOFMEMORY, 0)
  else
    let m1 := wr (wr (wr s.mem s.himem c) (s.himem - 1) d) (s.himem - 2) (toByte t)
    let m2 := if t = ARRAYVAR ∨ t = STRINGVAR then
        setaddr m1 (s.himem - 4) (vsizeOf t l - (addrsize + 3)) else m1
    ({ s with mem := m2, himem := s.himem - vsizeOf t l, nvars := s.nvars + 1 },
     s.himem - vsizeOf t l + 1)

theorem getaddr_setaddr (m : Mem) (a v : Nat) (hv : v < 65536) :
    getaddr (setaddr m a v) a = v := by
  rw [getaddr, setaddr]
  rw [wr_other _ _ _ _ (by omega), wr_same, wr_same]
  have h1 : v % 256 % 256 = v % 256 := by omega
  have h2 : v / 256 % 256 % 256 = v / 256 % 256 := by omega
  rw [h1, h2]
  omega

/-- Scanning past represented objects that do not match the query. -/
theorem bfindAux_skip (m : Mem) (t : Int) (c d : Nat) (objs : List HObj) :
    ∀ (b fuel : Nat), HeapRep m b objs →
    (∀ o ∈ objs, ¬(o.c = c ∧ o.d = d ∧ o.t = t)) →
    bfindAux m t c d (objs.length + fuel) b =
      bfindAux m t c d fuel (b - objsSize objs) := by
  induction objs with
  | nil =>
    intro b fuel _ _
    rw [List.length_nil, Nat.zero_add, show objsSize [] = 0 from rfl, Nat.sub_zero]
  | cons o rest ih =>
    intro b fuel hrep hmiss
    obtain ⟨hc, hd, ht, hcap, hle, hrest⟩ := hrep
    rw [List.length_cons, show rest.length + 1 + fuel = (rest.length + fuel) + 1 from by omega]
    rw [bfindAux]
    rw [hc, hd, ht]
    rw [if_neg (hmiss o (by simp))]
    have hb2 : (if o.t = VARIABLE then b - 3 else b - 5) -
        (if o.t = VARIABLE then numsize else getaddr m (b - 4)) = b - objSize o := by
      by_cases hv : o.t = VARIABLE
      · rw [if_pos hv, if_pos hv, objSize, if_pos hv]
        omega
      · rw [if_neg hv, if_neg hv, objSize, if_neg hv, hcap hv]
        simp only [objSize, if_neg hv] at hle
        simp only [addrsize] at *
        omega
    rw [hb2]
    rw [ih (b - objSize o) fuel hrest (fun o' ho' => hmiss o' (by simp [ho']))]
    rw [show b - objSize o - objsSize rest = b - objsSize (o :: rest) from by
      simp only [objsSize, List.map_cons, List.sum_cons]
      omega]

/-- `HeapRep` only looks at the bytes strictly above `b - objsSize`. -/
theorem HeapRep_frame (m m' : Mem) (objs : List HObj) :
    ∀ b : Nat, (∀ j, b - objsSize objs < j → j ≤ b → m' j = m j) →
    HeapRep m b objs → HeapRep m' b objs := by
  induction objs with
  | nil => intro b _ _; trivial
  | cons o rest ih =>
    intro b hagree hrep
    obtain ⟨hc, hd, ht, hcap, hle, hrest⟩ := hrep
    have hsz : objSize o ≥ 5 := by
      rw [objSize]
      split
      all_goals simp [numsize, addrsize]
    have hoz : objSize o ≤ objsSize (o :: rest) := by
      simp only [objsSize, List.map_cons, List.sum_cons]
      omega
    refine ⟨?_, ?_, ?_, ?_, hle, ?_⟩
    · rw [hagree b (by omega) (by omega)]
      exact hc
    · rw [hagree (b - 1) (by omega) (by omega)]
      exact hd
    · rw [hagree (b - 2) (by omega) (by omega)]
      exact ht
    · intro hnv
      have h5 : b - objsSize (o :: rest) < b - 4 := by omega
      have h5' : b - objsSize (o :: rest) < b - 4 + 1 := by omega
      rw [getaddr, hagree (b - 4) h5 (by omega), hagree (b - 4 + 1) h5' (by omega)]
      rw [← getaddr]
      exact hcap hnv
    · refine ih (b - objSize o) ?_ hrest
      intro j hj1 hj2
      refine hagree j ?_ (by omega)
      simp only [objsSize, List.map_cons, List.sum_cons] at *
      omega

theorem HeapRep_append (m : Mem) (objs : List HObj) (o : HObj) :
    ∀ b : Nat, HeapRep m b objs → HeapRep m (b - objsSize objs) [o] →
    HeapRep m b (objs ++ [o]) := by
  induction objs with
  | nil =>
    intro b _ h
    simpa [objsSize] using h
  | cons o1 rest ih =>
    intro b hrep hnew
    obtain ⟨hc, hd, ht, hcap, hle, hrest⟩ := hrep
    refine ⟨hc, hd, ht, hcap, hle, ?_⟩
    refine ih (b - objSize o1) hrest ?_
    rw [show b - objSize o1 - objsSize rest = b - objsSize (o1 :: rest) from by
      simp only [objsSize, List.map_cons, List.sum_cons]
      omega]
    exact hnew

/-- C3: when `bmalloc(t, c, d, l)` succeeds on a well-laid-out heap (the
object does not yet exist and there is room), it returns a non-zero
payload address without error; a subsequent `bfind(t, c, d)` returns
exactly that address, and `blength(t, c, d)` returns the capacity
recorded at allocation — `numsize` bytes for a scalar, `numsize·l` for
an array, `l` for a string. -/
theorem C3_bmalloc_bfind_blength (s : S) (objs : List HObj) (t : Int) (c d l : Nat)
    (hrep : HeapRep s.mem s.memsize objs)
    (hhim : s.himem = s.memsize - objsSize objs)
    (hnv : s.nvars = objs.length)
    (htb : s.top ≤ s.himem)
    (ht : t = VARIABLE ∨ t = ARRAYVAR ∨ t = STRINGVAR)
    (hc : c < 256) (hd : d < 256)
    (hl : vsizeOf t l < 65536)
    (hroom : vsizeOf t l ≤ s.himem - s.top)
    (hmiss : ∀ o ∈ objs, ¬(o.c = c ∧ o.d = d ∧ o.t = t)) :
    (bmalloc s t c d l).2 = s.himem - vsizeOf t l + 1 ∧
    (bmalloc s t c d l).2 ≠ 0 ∧
    (bmalloc s t c d l).1.er = s.er ∧
    (bfind (bmalloc s t c d l).1 t c d).1 = (bmalloc s t c d l).2 ∧
    blength (bmalloc s t c d l).1 t c d =
      (if t = VARIABLE then numsize else if t = ARRAYVAR then numsize * l else l) := by
  have hVge : 5 ≤ vsizeOf t l := by
    rw [vsizeOf]
    repeat' split
    all_goals simp only [numsize, addrsize]
    all_goals omega
  have hHV : vsizeOf t l ≤ s.himem := by omega
  have hskip0 := bfindAux_skip s.mem t c d objs s.memsize 0 hrep hmiss
  rw [Nat.add_zero] at hskip0
  have hfind0 : (bfind s t c d).1 = 0 := by
    rw [bfind, hnv, hskip0]
    rfl
  rw [bmalloc, if_neg (by rw [hfind0]; simp), if_neg (by omega)]
  dsimp only
  -- the freshly written bytes
  have hts : toSigned (toByte t) = t := by
    rcases ht with h | h | h
    all_goals rw [h]
    all_goals decide
  have hm1c : (wr (wr (wr s.mem s.himem c) (s.himem - 1) d) (s.himem - 2) (toByte t))
      s.himem = c := by
    rw [wr_other _ _ _ _ (by omega), wr_other _ _ _ _ (by omega), wr_same]
    omega
  have hm1d : (wr (wr (wr s.mem s.himem c) (s.himem - 1) d) (s.himem - 2) (toByte t))
      (s.himem - 1) = d := by
    rw [wr_other _ _ _ _ (by omega), wr_same]
    omega
  have hm1t : (wr (wr (wr s.mem s.himem c) (s.himem - 1) d) (s.himem - 2) (toByte t))
      (s.himem - 2) = toByte t := by
    rw [wr_same]
    have : toByte t < 256 := by
      rw [toByte]
      omega
    omega
  have hm1frame : ∀ j, s.himem < j →
      (wr (wr (wr s.mem s.himem c) (s.himem - 1) d) (s.himem - 2) (toByte t)) j
        = s.mem j := by
    intro j hj
    rw [wr_other _ _ _ _ (by omega), wr_other _ _ _ _ (by omega),
        wr_other _ _ _ _ (by omega)]
  -- case split on the object class
  by_cases hv : t = VARIABLE
  · rw [if_neg (by rw [hv]; decide)]
    have hm2frame : ∀ j, s.himem < j → j ≤ s.memsize →
        (wr (wr (wr s.mem s.himem c) (s.himem - 1) d) (s.himem - 2) (toByte t)) j
          = s.mem j := fun j hj _ => hm1frame j hj
    have hrep2 := HeapRep_frame s.mem _ objs s.memsize
      (fun j hj1 hj2 => hm2frame j (by omega) hj2) hrep
    have hfindres : bfind
        { s with mem := wr (wr (wr s.mem s.himem c) (s.himem - 1) d)
                   (s.himem - 2) (toByte t),
                 himem := s.himem - vsizeOf t l, nvars := s.nvars + 1 } t c d =
        (s.himem - vsizeOf t l + 1, numsize) := by
      rw [bfind]
      dsimp only
      rw [hnv]
      have hskip1 := bfindAux_skip
        (wr (wr (wr s.mem s.himem c) (s.himem - 1) d) (s.himem - 2) (toByte t))
        t c d objs s.memsize 1 hrep2 hmiss
      rw [hskip1, ← hhim]
      rw [bfindAux]
      rw [hm1c, hm1d, hm1t, hts]
      rw [if_pos ⟨rfl, rfl, rfl⟩]
      simp only [if_pos hv]
      have : s.himem - 3 - numsize = s.himem - vsizeOf t l := by
        rw [vsizeOf, if_pos hv]
        simp only [numsize]
        omega
      rw [this]
    refine ⟨rfl, by omega, rfl, ?_, ?_⟩
    · rw [hfindres]
    · rw [blength, hfindres]
      rw [if_neg (by dsimp only; omega), if_pos hv]
  · rw [if_pos (by rcases ht with h | h | h; exact absurd h hv; exact Or.inl h; exact Or.inr h)]
    have hm2c : setaddr
        (wr (wr (wr s.mem s.himem c) (s.himem - 1) d) (s.himem - 2) (toByte t))
        (s.himem - 4) (vsizeOf t l - (addrsize + 3)) s.himem = c := by
      rw [setaddr, wr_other _ _ _ _ (by omega), wr_other _ _ _ _ (by omega)]
      exact hm1c
    have hm2d : setaddr
        (wr (wr (wr s.mem s.himem c) (s.himem - 1) d) (s.himem - 2) (toByte t))
        (s.himem - 4) (vsizeOf t l - (addrsize + 3)) (s.himem - 1) = d := by
      rw [setaddr, wr_other _ _ _ _ (by omega), wr_other _ _ _ _ (by omega)]
      exact hm1d
    have hm2t : setaddr
        (wr (wr (wr s.mem s.himem c) (s.himem - 1) d) (s.himem - 2) (toByte t))
        (s.himem - 4) (vsizeOf t l - (addrsize + 3)) (s.himem - 2) = toByte t := by
      rw [setaddr, wr_other _ _ _ _ (by omega), wr_other _ _ _ _ (by omega)]
      exact hm1t
    have hm2cap : getaddr (setaddr
        (wr (wr (wr s.mem s.himem c) (s.himem - 1) d) (s.himem - 2) (toByte t))
        (s.himem - 4) (vsizeOf t l - (addrsize + 3))) (s.himem - 4) =
        vsizeOf t l - (addrsize + 3) := by
      rw [getaddr_setaddr _ _ _ (by simp only [addrsize]; omega)]
    have hm2frame : ∀ j, s.himem < j → setaddr
        (wr (wr (wr s.mem s.himem c) (s.himem - 1) d) (s.himem - 2) (toByte t))
        (s.himem - 4) (vsizeOf t l - (addrsize + 3)) j = s.mem j := by
      intro j hj
      rw [setaddr, wr_other _ _ _ _ (by omega), wr_other _ _ _ _ (by omega)]
      exact hm1frame j hj
    have hrep2 := HeapRep_frame s.mem _ objs s.memsize
      (fun j hj1 hj2 => hm2frame j (by omega)) hrep
    have hfindres : bfind
        { s with mem := setaddr
                   (wr (wr (wr s.mem s.himem c) (s.himem - 1) d) (s.himem - 2) (toByte t))
                   (s.himem - 4) (vsizeOf t l - (addrsize + 3)),
                 himem := s.himem - vsizeOf t l, nvars := s.nvars + 1 } t c d =
        (s.himem - vsizeOf t l + 1, vsizeOf t l - (addrsize + 3)) := by
      rw [bfind]
      dsimp only
      rw [hnv]
      have hskip1 := bfindAux_skip
        (setaddr (wr (wr (wr s.mem s.himem c) (s.himem - 1) d) (s.himem - 2) (toByte t))
          (s.himem - 4) (vsizeOf t l - (addrsize + 3)))
        t c d objs s.memsize 1 hrep2 hmiss
      rw [hskip1, ← hhim]
      rw [bfindAux]
      rw [hm2c, hm2d, hm2t, hts]
      rw [if_pos ⟨rfl, rfl, rfl⟩]
      simp only [if_neg hv]
      rw [hm2cap]
      have : s.himem - 5 - (vsizeOf t l - (addrsize + 3)) = s.himem - vsizeOf t l := by
        simp only [addrsize]
        omega
      rw [this]
    refine ⟨rfl, by omega, rfl, ?_, ?_⟩
    · rw [hfindres]
    · rw [blength, hfindres]
      rw [if_neg (by dsimp only; omega), if_neg hv]
      dsimp only
      rcases ht with h | h | h
      · exact absurd h hv
      · rw [if_pos h, vsizeOf, if_neg hv, if_pos h]
        simp only [addrsize]
        omega
      · have hna : ¬ t = ARRAYVAR := by
          rw [h]
          decide
        rw [if_neg hna, vsizeOf, if_neg hv, if_neg hna]
        simp only [addrsize]
        omega

theorem C3_bmalloc_bfind_blength_witness :
    (HeapRep s0.mem s0.memsize [] ∧ s0.himem = s0.memsize - objsSize [] ∧
     s0.nvars = List.length ([] : List HObj) ∧ s0.top ≤ s0.himem ∧
     (STRINGVAR = VARIABLE ∨ STRINGVAR = ARRAYVAR ∨ STRINGVAR = STRINGVAR) ∧
     (65 : Nat) < 256 ∧ (0 : Nat) < 256 ∧ vsizeOf STRINGVAR 12 < 65536 ∧
     vsizeOf STRINGVAR 12 ≤ s0.himem - s0.top ∧
     (∀ o ∈ ([] : List HObj), ¬(o.c = 65 ∧ o.d = 0 ∧ o.t = STRINGVAR))) ∧
    ((bmalloc s0 STRINGVAR 65 0 12).2 = s0.himem - vsizeOf STRINGVAR 12 + 1 ∧
     (bmalloc s0 STRINGVAR 65 0 12).2 ≠ 0 ∧
     (bmalloc s0 STRINGVAR 65 0 12).1.er = s0.er ∧
     (bfind (bmalloc s0 STRINGVAR 65 0 12).1 STRINGVAR 65 0).1 =
       (bmalloc s0 STRINGVAR 65 0 12).2 ∧
     blength (bmalloc s0 STRINGVAR 65 0 12).1 STRINGVAR 65 0 =
       (if STRINGVAR = VARIABLE then numsize
        else if STRINGVAR = ARRAYVAR then numsize * 12 else 12)) :=
  ⟨⟨trivial, by decide, by decide, by decide, by decide, by decide, by decide,
    by decide, by decide, by simp⟩,
   C3_bmalloc_bfind_blength s0 [] STRINGVAR 65 0 12 trivial (by decide) (by decide)
     (by decide) (by decide) (by decide) (by decide) (by decide) (by decide)
     (by simp)⟩

/-! ## The program store and the line editor

A stored program line is a `LINENUMBER` record (tag byte + 2-byte line
number) followed by the bytes of its body tokens.  `storeline` receives
the line number and the already-scanned body tokens — the interactive
tokenizer that produces them works on `ibuffer` and is outside this
model; `storetoken` appends each token's bytes after a `nomemory`
check. -/

def lnlength : Nat := addrsize + 1

def encLine (n : Nat) (body : List Tok) : List Nat :=
  toByte LINENUMBER :: (encAddr n ++ encToks body)

def progBytes : List (Nat × List Tok) → List Nat
  | [] => []
  | (n, body) :: rest => encLine n body ++ progBytes rest

def writeBytes (m : Mem) : Nat → List Nat → Mem
  | _, [] => m
  | a, b :: bs => writeBytes (wr m a b) (a + 1) bs

/-- `storetoken()` for the `LINENUMBER` tag: `nomemory(addrsize+1)`,
then the tag byte and the 2-byte number (`z.a = x; setnumber`). -/
def storetokenLN (s : S) (n : Nat) : S :=
  if s.himem - (addrsize + 1) ≤ s.top then errorS s EOUTOFMEMORY
  else { s with mem := setaddr (wr s.mem s.top (toByte LINENUMBER)) (s.top + 1) n,
                top := s.top + (addrsize + 1) }

/-- The `nomemory` argument of `storetoken` for each body-token case. -/
def stTokRoom : Tok → Nat
  | .num _ => numsize + 1
  | .varT _ _ => 3
  | .arrT _ _ => 3
  | .strT _ _ => 3
  | .strlit cs => cs.length + 2
  | .other _ => 1

/-- `storetoken()` for a body token: check free memory, then append the
token's tag and payload bytes (laid out by `encTok`) at `top`. -/
def storetokenT (s : S) (t : Tok) : S :=
  if s.himem - stTokRoom t ≤ s.top then errorS s EOUTOFMEMORY
  else { s with mem := writeBytes s.mem s.top (encTok t),
                top := s.top + (encTok t).length }

/-- The `do … while (token != EOL)` body of `storeline` stage 1 after
the `LINENUMBER` record: store each body token, stopping at an error. -/
def appendBody (s : S) : List Tok → S
  | [] => s
  | t :: ts =>
    let s' := storetokenT s t
    if s'.er ≠ 0 then s' else appendBody s' ts

/-- The loop of `nextline()`. -/
def nextlineAux : Nat → S → S
  | 0, s => s
  | f + 1, s =>
    if s.here < s.top then
      let s' := gettoken s
      if s'.token = LINENUMBER then s'
      else if s'.here ≥ s'.top then { s' with here := s'.top, x := 0 }
      else nextlineAux f s'
    else s

def nextline (s : S) : S := nextlineAux (s.top + 1) s

/-- The loop of `findline(l)`. -/
def findlineAux (l : Int) : Nat → S → S
  | 0, s => s
  | f + 1, s =>
    if s.here < s.top then
      let s' := gettoken s
      if s'.token = LINENUMBER ∧ s'.x = l then s' else findlineAux l f s'
    else errorS s ELINE

def findline (s : S) (l : Int) : S := findlineAux l (s.top + 1) { s with here := 0 }

/-- `firstline()`. -/
def firstline (s : S) : S :=
  if s.top = 0 then { s with x := 0 }
  else gettoken { s with here := 0 }

/-- `address_t` subtraction: the positions in `storeline` are 16-bit and
wrap; `here2 - lnlength` is really taken modulo 2^16 (it underflows when
a line is inserted before the first line). -/
def asub16 (a b : Nat) : Nat := (a + 65536 - b) % 65536

/-- The `while (here < top) { here3=here2; here2=here; nextline(); if
(x > y) break; }` scan of `storeline` stage 3; returns the state and the
final `here2`, `here3`. -/
def scanLoop (y : Int) : Nat → S → Nat → Nat → S × Nat × Nat
  | 0, s, here2, here3 => (s, here2, here3)
  | f + 1, s, here2, here3 =>
    if s.here < s.top then
      let h3 := here2
      let h2 := s.here
      let s' := nextline s
      if s'.x > y then (s', h2, h3)
      else scanLoop y f s' h2 h3
    else (s, here2, here3)

/-- Stage 3 of `storeline`: a non-trivial line with number `n` was
appended at `newline` with total length `linelength`; find its place and
move it there.  The C locals `t1`, `t2`, `y` (reused for the old line's
length) are passed explicitly. -/
def storelineInsert (s1 : S) (n : Nat) (linelength : Nat) : S :=
  let sA := nextline { s1 with here := lnlength }
  if sA.x = 0 then sA
  else
    let r := scanLoop (n : Int) (s1.top + 2) { sA with here := 0 } 0 0
    let s3 := r.1
    let here2 := r.2.1
    let here3 := r.2.2
    if s3.x = 0 then
      let s4 := gettoken { s3 with here := asub16 here3 lnlength }
      if s4.token = LINENUMBER ∧ s4.x = (n : Int) then
        let here2' := asub16 here2 lnlength
        let here' := asub16 s4.here lnlength
        let s5 := moveblock { s4 with here := here' } here2' linelength here'
        { s5 with top := here' + linelength }
      else s4
    else
      let t1 := s3.here - lnlength
      let t2 := asub16 here2 lnlength
      let s4 := gettoken { s3 with here := t2 }
      if s4.x = (n : Int) then
        let yl := t1 - t2
        if linelength = yl then
          let s5 := moveblock { s4 with here := t1 } (s4.top - linelength) linelength t2
          { s5 with top := s5.top - linelength }
        else if linelength > yl then
          let s5 := moveblock { s4 with here := t1 } t1 (s4.top - t1) (t1 + linelength - yl)
          let s6 := { s5 with here := t1 + linelength - yl, top := s5.top + linelength - yl }
          let s7 := moveblock s6 (s6.top - linelength) linelength t2
          { s7 with top := s7.top - linelength }
        else
          let s5 := moveblock { s4 with here := t1 } (s4.top - linelength) linelength t2
          let s6 := { s5 with top := s5.top - linelength }
          let s7 := moveblock s6 s6.here (s6.top - s6.here) (t2 + linelength)
          { s7 with top := s7.top - yl + linelength }
      else
        let s5 := moveblock { s4 with here := t1 } t1 (s4.top - t1) (t1 + linelength)
        moveblock s5 s5.top linelength t1

/-- `storeline()`: stage 1 appends the tokenized line at `top` (rolling
back on error); a bare line number deletes that line (stage 2); anything
else is inserted or replaces an existing line (stages 3–4). -/
def storeline (s : S) (n : Nat) (body : List Tok) : S :=
  if n = 0 then errorS s ELINE
  else
    let newline := s.top
    let s1 := appendBody (storetokenLN { s with here := s.top } n) body
    if s1.er ≠ 0 then { s1 with top := newline, here := 0 }
    else
      let linelength := s1.top - newline
      if linelength = lnlength then
        let s2 := findline { s1 with top := s1.top - lnlength } (n : Int)
        if s2.er ≠ 0 then s2
        else
          let y2 := s2.here - lnlength
          let s3 := nextline s2
          let here3 := s3.here - lnlength
          if s3.x ≠ 0 then
            let s4 := moveblock { s3 with here := here3 } here3 (s3.top - here3) y2
            { s4 with top := s4.top - (here3 - y2) }
          else { s3 with here := here3, top := y2 }
      else storelineInsert s1 n linelength

/-! ### The abstract program and the effect of one `storeline` -/

/-- Insert or replace a line in the sorted line list. -/
def insertLine (n : Nat) (body : List Tok) :
    List (Nat × List Tok) → List (Nat × List Tok)
  | [] => [(n, body)]
  | (m, b) :: rest =>
    if n < m then (n, body) :: (m, b) :: rest
    else if n = m then (n, body) :: rest
    else (m, b) :: insertLine n body rest

/-- The abstract effect of `storeline n body`: an empty body deletes
line `n` (deleting a missing line raises an error and changes nothing),
a non-empty body inserts or replaces it. -/
def applyOp (ls : List (Nat × List Tok)) (n : Nat) (body : List Tok) :
    List (Nat × List Tok) :=
  if body = [] then ls.filter (fun p => p.1 ≠ n) else insertLine n body ls

/-- Well-formed line lists: strictly ascending line numbers, each in
`1 … 65535`, non-empty bodies of well-formed tokens. -/
def LinesWF (ls : List (Nat × List Tok)) : Prop :=
  List.Chain' (fun p q : Nat × List Tok => p.1 < q.1) ls ∧
  ∀ p ∈ ls, 1 ≤ p.1 ∧ p.1 < 65536 ∧ p.2 ≠ [] ∧ ∀ t ∈ p.2, t.ok = true

/-- The program region `[0, top)` holds exactly the bytes of the line
list; every memory cell is a byte. -/
def Rep (ls : List (Nat × List Tok)) (s : S) : Prop :=
  s.top = (progBytes ls).length ∧ fits s.mem 0 (progBytes ls) ∧
  ∀ j, s.mem j < 256

/-! ### Enumeration through `firstline`/`nextline` -/

def readBytes (m : Mem) (a k : Nat) : List Nat :=
  (List.range k).map (fun i => m (a + i))

/-- Walk the program with `nextline`, collecting each line's number and
its body bytes (from after the `LINENUMBER` record to the start of the
next one, or to `top` for the last line). -/
def enumAux : Nat → S → List (Nat × List Nat)
  | 0, _ => []
  | f + 1, s =>
    if s.token = LINENUMBER then
      let start := s.here
      let s' := nextline s
      let stop := if s'.x = 0 then s'.here else s'.here - lnlength
      (s.x.toNat, readBytes s.mem start (stop - start)) :: enumAux f s'
    else []

/-- Enumerate the program through `firstline`/`nextline`. -/
def enumLines (s : S) : List (Nat × List Nat) :=
  if s.top = 0 then [] else enumAux (s.top + 1) (firstline s)

end TinyBasic
